import Mathlib

/-!
Verification of the HomebrewNLP-MTF optimizer core (`src/optimizer/__init__.py`)
against its natural-language specification.  Tensor arithmetic is modelled over
exact rationals (and reals where square roots appear); boolean tensors become
0/1 indicators, mirroring `to_fp32(greater_equal ...)` and `to_fp32(equal ...)`.
-/

namespace MTF

/-- Indicator of a decidable proposition, modelling `to_fp32` applied to a
boolean tensor: 1 if the proposition holds, 0 otherwise. -/
def indQ (p : Prop) [Decidable p] : ℚ := if p then 1 else 0

/-- The `min_gamma` constant of `get_optimizer` (0.001). -/
def minGamma : ℚ := 1 / 1000

/-- First stage of the γ cascade:
`gamma = multiply(constant(1 - min_gamma), to_fp32(greater_equal(v1v2, v1v1)))`. -/
def gammaStep1 (v1v1 v1v2 : ℚ) : ℚ := (1 - minGamma) * indQ (v1v1 ≤ v1v2)

/-- Second stage of the γ cascade:
`gamma = add(gamma, einsum([min_gamma, to_fp32(greater_equal(v1v2, v2v2)), to_fp32(equal(gamma, 0))]))`. -/
def gammaStep2 (v1v1 v1v2 v2v2 : ℚ) : ℚ :=
  gammaStep1 v1v1 v1v2 + minGamma * indQ (v2v2 ≤ v1v2) * indQ (gammaStep1 v1v1 v1v2 = 0)

/-- The blend coefficient γ exactly as built by `get_optimizer` (lines 116-132):
third stage adds `einsum([-1, to_fp32(equal(gamma, 0)), add(v1v2, negative(v2v2)),
reciprocal(add(v1v1, v2v2) - multiply(-2, v1v2))])`.  Note the reciprocal's
argument is `v1v1 + v2v2 - (-2 * v1v2)`, i.e. `v1v1 + v2v2 + 2 * v1v2`. -/
def mgdaGamma (v1v1 v1v2 v2v2 : ℚ) : ℚ :=
  gammaStep2 v1v1 v1v2 v2v2 +
    (-1) * indQ (gammaStep2 v1v1 v1v2 v2v2 = 0) * (v1v2 - v2v2) *
      (v1v1 + v2v2 - (-2) * v1v2)⁻¹

/-- Scalarized loss, line 134:
`add(multiply(loss_list[0], gamma), multiply(loss_list[1], (1 - gamma)))`. -/
def scalarizedLoss (l1 l2 g : ℚ) : ℚ := l1 * g + l2 * (1 - g)

/-- Clamp `x` into `[lo, hi]`. -/
def clampQ (lo hi x : ℚ) : ℚ := max lo (min x hi)

/-- The γ of the specification (spec §4.3), written from the spec's words for
comparison with `mgdaGamma`: branch on `g1·g2 ≥ g1·g1`, then `g1·g2 ≥ g2·g2`,
else the min-norm coefficient `(g2·g2 − g1·g2) / (g1·g1 + g2·g2 − 2·g1·g2)`
clamped to `[ε, 1−ε]`. -/
def specGamma (v1v1 v1v2 v2v2 : ℚ) : ℚ :=
  if v1v1 ≤ v1v2 then 1 - minGamma
  else if v2v2 ≤ v1v2 then minGamma
  else clampQ minGamma (1 - minGamma) ((v2v2 - v1v2) / (v1v1 + v2v2 - 2 * v1v2))

/-- Branch form of the γ the code actually computes: same first two branches as
the spec, but the final branch divides by `v1v1 + v2v2 + 2 * v1v2` and is not
clamped. -/
def mgdaGammaBranch (v1v1 v1v2 v2v2 : ℚ) : ℚ :=
  if v1v1 ≤ v1v2 then 1 - minGamma
  else if v2v2 ≤ v1v2 then minGamma
  else (v2v2 - v1v2) * (v1v1 + v2v2 + 2 * v1v2)⁻¹

/-- The indicator cascade of the code equals its branch form. -/
theorem mgdaGamma_eq_branch (v1v1 v1v2 v2v2 : ℚ) :
    mgdaGamma v1v1 v1v2 v2v2 = mgdaGammaBranch v1v1 v1v2 v2v2 := by
  by_cases h1 : v1v1 ≤ v1v2
  · simp only [mgdaGamma, gammaStep2, gammaStep1, mgdaGammaBranch, indQ, if_pos h1]
    norm_num [minGamma]
  · by_cases h2 : v2v2 ≤ v1v2
    · simp only [mgdaGamma, gammaStep2, gammaStep1, mgdaGammaBranch, indQ,
        if_neg h1, if_pos h2]
      norm_num [minGamma]
    · simp only [mgdaGamma, gammaStep2, gammaStep1, mgdaGammaBranch, indQ,
        if_neg h1, if_neg h2]
      norm_num [minGamma]

/-- C1: counterexample.  At accumulated inner products `g1·g1 = 4`,
`g1·g2 = 1`, `g2·g2 = 2` the code's γ is `1/8` while the claim's formula
(clamped min-norm coefficient with denominator `g1·g1 + g2·g2 − 2·g1·g2`)
gives `1/4`; moreover at `(1, −3, 1)` the code's γ is `−1`, outside `[0,1]`. -/
theorem C1_counterexample :
    mgdaGamma 4 1 2 = 1 / 8 ∧ specGamma 4 1 2 = 1 / 4 ∧
      mgdaGamma 4 1 2 ≠ specGamma 4 1 2 ∧
      mgdaGamma 1 (-3) 1 = -1 ∧ ¬ (0 ≤ mgdaGamma 1 (-3) 1) := by
  refine ⟨?_, ?_, ?_, ?_, ?_⟩
  · rw [mgdaGamma_eq_branch]; norm_num [mgdaGammaBranch, minGamma]
  · norm_num [specGamma, clampQ, minGamma, min_def, max_def]
  · rw [mgdaGamma_eq_branch]
    norm_num [mgdaGammaBranch, specGamma, clampQ, minGamma, min_def, max_def]
  · rw [mgdaGamma_eq_branch]; norm_num [mgdaGammaBranch, minGamma]
  · rw [mgdaGamma_eq_branch]; norm_num [mgdaGammaBranch, minGamma]

/-- C1 (amended): for all accumulated inner products, the computed γ equals
`1−ε` if `g1·g2 ≥ g1·g1`, else `ε` if `g1·g2 ≥ g2·g2`, else
`(g2·g2 − g1·g2) / (g1·g1 + g2·g2 + 2·g1·g2)` with no clamping (so γ can fall
outside `[0,1]`); and the scalarized loss equals `γ·loss1 + (1−γ)·loss2`. -/
theorem C1_amended_correct (v1v1 v1v2 v2v2 l1 l2 : ℚ) :
    mgdaGamma v1v1 v1v2 v2v2 = mgdaGammaBranch v1v1 v1v2 v2v2 ∧
      scalarizedLoss l1 l2 (mgdaGamma v1v1 v1v2 v2v2) =
        mgdaGamma v1v1 v1v2 v2v2 * l1 + (1 - mgdaGamma v1v1 v1v2 v2v2) * l2 := by
  refine ⟨mgdaGamma_eq_branch v1v1 v1v2 v2v2, ?_⟩
  simp only [scalarizedLoss]
  ring

/-- C4: counterexample.  When the two heads' gradients agree, all three inner
products coincide (take them all 1); then the code takes the first branch and
γ is `1 − ε = 0.999`, not `0.5 ± ε`. -/
theorem C4_counterexample :
    mgdaGamma 1 1 1 = 1 - minGamma ∧ ¬ |mgdaGamma 1 1 1 - 1 / 2| ≤ minGamma := by
  constructor
  · rw [mgdaGamma_eq_branch]; norm_num [mgdaGammaBranch]
  · rw [mgdaGamma_eq_branch, abs_le]; norm_num [mgdaGammaBranch, minGamma]

/-- C4 (amended): whenever `g1·g2 ≥ g1·g1` (in particular whenever the two
heads' gradients are equal, which makes all three inner products coincide),
the computed γ equals `1 − ε`. -/
theorem C4_amended_correct (v1v1 v1v2 v2v2 : ℚ) (h : v1v1 ≤ v1v2) :
    mgdaGamma v1v1 v1v2 v2v2 = 1 - minGamma := by
  rw [mgdaGamma_eq_branch, mgdaGammaBranch, if_pos h]

/-- C4: witness at equal inner products `(1, 1, 1)`. -/
theorem C4_witness : (1 : ℚ) ≤ 1 ∧ mgdaGamma 1 1 1 = 1 - minGamma :=
  ⟨le_refl 1, C4_amended_correct 1 1 1 (le_refl 1)⟩

/-- State of one variable's accumulation machinery: its stored value and its
gradient-accumulation buffer (scalar model of an equal-shaped tensor pair). -/
structure AccumState where
  buffer : ℚ
  value : ℚ
  deriving DecidableEq

/-- One `gradient_accumulation` call:
`assign_add(grad_buffer, add(grad, identity(grad_buffer)))`, i.e. the buffer
becomes `buffer + (grad + buffer)`; the variable is untouched. -/
def accumulateStep (s : AccumState) (grad : ℚ) : AccumState :=
  { s with buffer := s.buffer + (grad + s.buffer) }

/-- Running the accumulate operation for `n` consecutive steps with constant
per-step gradient `grad`. -/
def runAccum (grad : ℚ) : ℕ → AccumState → AccumState
  | 0, s => s
  | n + 1, s => accumulateStep (runAccum grad n s) grad

/-- The gradient `update` feeds into the update-rule chain on the apply step:
`ctx.grad = identity(ctx.grad_buffer.value)` — the buffer's content replaces
the apply step's own raw gradient. -/
def applyFedGrad (s : AccumState) : ℚ := s.buffer

/-- The apply step of `update` with the identity update-rule chain (the spec's
`sgd` scenario): the buffer is zeroed (`assign(grad_buffer, zeros_like(...))`)
and the fed gradient is subtracted from the variable. -/
def applyStep (s : AccumState) : AccumState :=
  { buffer := 0, value := s.value - applyFedGrad s }

/-- Buffer contents after `n` accumulate steps from a zero buffer: the
`assign_add` of `grad + identity(grad_buffer)` doubles the buffer each step,
giving `(2^n - 1) * grad` rather than `n * grad`. -/
theorem runAccum_buffer (grad v : ℚ) (n : ℕ) :
    (runAccum grad n ⟨0, v⟩).buffer = (2 ^ n - 1) * grad ∧
      (runAccum grad n ⟨0, v⟩).value = v := by
  induction n with
  | zero => simp [runAccum]
  | succ n ih =>
    refine ⟨?_, ?_⟩
    · simp only [runAccum, accumulateStep, ih.1]
      ring
    · simp only [runAccum, accumulateStep, ih.2]

/-- C2: counterexample.  Scenario B of the claim: window `N = 2`, constant
gradient `0.2`, `v = 1.0`, zero initial buffer.  Step 1 (accumulate) leaves
buffer `0.2` with `v` unchanged, as claimed — but step 2 (apply) feeds the
buffer value `0.2` into the chain, not `N·g = 0.4`, and produces `v' = 0.8`,
not `0.6`. -/
theorem C2_counterexample :
    (runAccum (1/5) 1 ⟨0, 1⟩).buffer = 1/5 ∧
      (runAccum (1/5) 1 ⟨0, 1⟩).value = 1 ∧
      applyFedGrad (runAccum (1/5) 1 ⟨0, 1⟩) ≠ 2 * (1/5) ∧
      (applyStep (runAccum (1/5) 1 ⟨0, 1⟩)).value ≠ 1 - 2 * (1/5) := by
  refine ⟨?_, ?_, ?_, ?_⟩ <;>
    norm_num [runAccum, accumulateStep, applyStep, applyFedGrad]

/-- C2 (amended): for every window `N ≥ 2` and constant per-step gradient `g`,
running accumulate on steps `0..N−2` from a zero buffer and apply on step
`N−1` feeds exactly `(2^(N−1) − 1)·g` into the update-rule chain (the buffer
doubles on every accumulate, and the apply step's own gradient is discarded),
leaves the variable untouched until the apply, and the buffer reads zero
immediately after the apply. -/
theorem C2_amended_correct (g v : ℚ) (N : ℕ) (hN : 2 ≤ N) :
    applyFedGrad (runAccum g (N - 1) ⟨0, v⟩) = (2 ^ (N - 1) - 1) * g ∧
      (runAccum g (N - 1) ⟨0, v⟩).value = v ∧
      (applyStep (runAccum g (N - 1) ⟨0, v⟩)).buffer = 0 ∧
      (applyStep (runAccum g (N - 1) ⟨0, v⟩)).value =
        v - (2 ^ (N - 1) - 1) * g := by
  obtain ⟨h1, h2⟩ := runAccum_buffer g v (N - 1)
  exact ⟨h1, h2, rfl, by simp [applyStep, applyFedGrad, h1, h2]⟩

/-- C2: witness at `N = 2`, `g = 1/5`, `v = 1`: the apply step feeds
`(2^1 − 1)·g = 1/5` and zeroes the buffer. -/
theorem C2_witness :
    2 ≤ 2 ∧
      (applyFedGrad (runAccum (1/5) (2 - 1) ⟨0, 1⟩) = (2 ^ (2 - 1) - 1) * (1/5) ∧
        (runAccum (1/5) (2 - 1) ⟨0, (1 : ℚ)⟩).value = 1 ∧
        (applyStep (runAccum (1/5) (2 - 1) ⟨0, 1⟩)).buffer = 0 ∧
        (applyStep (runAccum (1/5) (2 - 1) ⟨0, 1⟩)).value =
          1 - (2 ^ (2 - 1) - 1) * (1/5)) :=
  ⟨le_refl 2, C2_amended_correct (1/5) 1 2 (le_refl 2)⟩

/-- Python substring test `needle in hay`, over character lists. -/
def containsSub (needle : List Char) : List Char → Bool
  | [] => needle.isEmpty
  | c :: rest => needle.isPrefixOf (c :: rest) || containsSub needle rest

/-- The parameters `update` reads when regularizing a variable. -/
structure OptParams where
  featureDimsLen : ℕ
  weightDecay : ℚ
  learningRate : ℚ
  rezeroLrMultiplier : ℚ

/-- One trainable variable as `update` sees it: display name, dimension sizes,
the `feature_dims_used` shape predicate (computed in `utils_mtf`, outside this
core), and a scalar model of its stored value. -/
structure VarInfo where
  name : List Char
  dims : List ℕ
  featuresUsed : Bool
  value : ℚ

/-- The `large_tensor` classification of `update` (lines 48-54): shape-based
eligibility, then `var.shape.size > 1`, then three substring tests on the
variable's display name (`"embed"`, `"input"`, `"output"` with the
`lang_in`/`vid_in`/`lang_out`/`vid_out` overrides). -/
def largeTensor (p : OptParams) (v : VarInfo) : Bool :=
  ((v.featuresUsed && decide (p.featureDimsLen < v.dims.length)) ||
      (!v.featuresUsed && decide (2 ≤ v.dims.length))) &&
    decide (1 < v.dims.prod) &&
    !containsSub "embed".toList v.name &&
    (!containsSub "input".toList v.name || containsSub "lang_in".toList v.name ||
      containsSub "vid_in".toList v.name) &&
    (!containsSub "output".toList v.name || containsSub "lang_out".toList v.name ||
      containsSub "vid_out".toList v.name)

/-- The substring `update` tests for the rezero learning-rate multiplier. -/
def rezeroSub : List Char := "rezero".toList

/-- The gradient transformation of `update` after the optimizer chain
(lines 45-59): multiply by `rezero_lr_multiplier` when the display name
contains `"rezero"`, then add the decoupled weight-decay term
`weight_decay * var.value * learning_rate` when the variable is classified
large and decay is enabled. -/
def postChainGrad (p : OptParams) (v : VarInfo) (g : ℚ) : ℚ :=
  let g1 := if containsSub rezeroSub v.name = true then p.rezeroLrMultiplier * g else g
  if largeTensor p v = true ∧ 0 < p.weightDecay then
    g1 + p.weightDecay * v.value * p.learningRate
  else g1

/-- The weight-decay contribution in isolation. -/
def decayTerm (p : OptParams) (v : VarInfo) : ℚ :=
  if largeTensor p v = true ∧ 0 < p.weightDecay then
    p.weightDecay * v.value * p.learningRate
  else 0

/-- C3: counterexample.  Two variables with identical shape `[4,4]`, identical
`feature_dims_used` flag and identical value, differing only in display name
(`"w"` versus `"w_embed"`), are classified differently (`large_tensor` is
true for the first, false for the second) and receive different updates once
weight decay is on — classification does depend on name substrings. -/
theorem C3_counterexample :
    largeTensor ⟨1, 1, 1, 1⟩ ⟨"w".toList, [4, 4], false, 1⟩ = true ∧
      largeTensor ⟨1, 1, 1, 1⟩ ⟨"w_embed".toList, [4, 4], false, 1⟩ = false ∧
      postChainGrad ⟨1, 1, 1, 1⟩ ⟨"w".toList, [4, 4], false, 1⟩ 1 ≠
        postChainGrad ⟨1, 1, 1, 1⟩ ⟨"w_embed".toList, [4, 4], false, 1⟩ 1 := by
  have h1 : largeTensor ⟨1, 1, 1, 1⟩ ⟨"w".toList, [4, 4], false, 1⟩ = true := by decide
  have h2 : largeTensor ⟨1, 1, 1, 1⟩ ⟨"w_embed".toList, [4, 4], false, 1⟩ = false := by
    decide
  have h3 : containsSub rezeroSub "w".toList = false := by decide
  have h4 : containsSub rezeroSub "w_embed".toList = false := by decide
  refine ⟨h1, h2, ?_⟩
  simp only [postChainGrad, h1, h2, h3, h4]
  norm_num

/-- C3 (amended): the classification and post-chain update are a function of
the display name, the dimension sizes, the `feature_dims_used` flag and the
stored value — two variables agreeing on all four are treated identically —
but they do inspect name substrings: any variable whose display name contains
`"embed"` is classified not-large regardless of shape or flags. -/
theorem C3_amended_correct (p : OptParams) (v1 v2 w : VarInfo) (g : ℚ)
    (hn : v1.name = v2.name) (hd : v1.dims = v2.dims)
    (hf : v1.featuresUsed = v2.featuresUsed) (hv : v1.value = v2.value)
    (hw : containsSub "embed".toList w.name = true) :
    largeTensor p v1 = largeTensor p v2 ∧
      postChainGrad p v1 g = postChainGrad p v2 g ∧
      largeTensor p w = false := by
  obtain ⟨n1, d1, f1, x1⟩ := v1
  obtain ⟨n2, d2, f2, x2⟩ := v2
  simp only at hn hd hf hv
  subst hn; subst hd; subst hf; subst hv
  refine ⟨rfl, rfl, ?_⟩
  simp only [largeTensor]
  rw [hw]
  simp

/-- C3: witness with two copies of the same variable and an `"embed"`-named
variable. -/
theorem C3_witness :
    ("w".toList = "w".toList) ∧
      containsSub "embed".toList "pos_embed".toList = true ∧
      (largeTensor ⟨1, 1, 1, 1⟩ ⟨"w".toList, [4, 4], false, 1⟩ =
          largeTensor ⟨1, 1, 1, 1⟩ ⟨"w".toList, [4, 4], false, 1⟩ ∧
        postChainGrad ⟨1, 1, 1, 1⟩ ⟨"w".toList, [4, 4], false, 1⟩ 1 =
          postChainGrad ⟨1, 1, 1, 1⟩ ⟨"w".toList, [4, 4], false, 1⟩ 1 ∧
        largeTensor ⟨1, 1, 1, 1⟩ ⟨"pos_embed".toList, [4, 4], false, 1⟩ = false) :=
  ⟨rfl, by decide,
    C3_amended_correct ⟨1, 1, 1, 1⟩ ⟨"w".toList, [4, 4], false, 1⟩
      ⟨"w".toList, [4, 4], false, 1⟩ ⟨"pos_embed".toList, [4, 4], false, 1⟩ 1
      rfl rfl rfl rfl (by decide)⟩

/-- C10: for every variable, the gradient coming out of the optimizer chain is
multiplied by the configured rezero learning-rate multiplier exactly when the
display name contains the substring `"rezero"`, and this happens before the
weight-decay term is added (and hence before the final subtraction);
variables whose names lack the substring receive no scaling. -/
theorem C10_rezero_scaling (p : OptParams) (v : VarInfo) (g : ℚ) :
    (containsSub rezeroSub v.name = true →
        postChainGrad p v g = p.rezeroLrMultiplier * g + decayTerm p v) ∧
      (containsSub rezeroSub v.name = false →
        postChainGrad p v g = g + decayTerm p v) := by
  constructor <;> intro h <;>
    by_cases hl : largeTensor p v = true ∧ 0 < p.weightDecay <;>
      simp [postChainGrad, decayTerm, h, hl]

/-- C10: witness on a `"rezero"`-named variable and scalar inputs. -/
theorem C10_witness :
    containsSub rezeroSub "rezero_w".toList = true ∧
      postChainGrad ⟨1, 1, 1, 3⟩ ⟨"rezero_w".toList, [1], false, 1⟩ 2 =
        (3 : ℚ) * 2 +
          decayTerm ⟨1, 1, 1, 3⟩ ⟨"rezero_w".toList, [1], false, 1⟩ :=
  ⟨by decide,
    (C10_rezero_scaling ⟨1, 1, 1, 3⟩ ⟨"rezero_w".toList, [1], false, 1⟩ 2).1
      (by decide)⟩

/-- The apply-step indicator of `get_optimizer` (lines 98-100):
`cast(equal(mod(manual_step + 1, grad_accumulation), 0), dtype)` — 1.0 when
`(step + 1) mod N = 0`, else 0.0. -/
def stepIndicator (s N : ℕ) : ℚ := if (s + 1) % N = 0 then 1 else 0

/-- A momentum coefficient as built in lines 101-104:
`beta = add(1, multiply(neg_step, import_mtf(1 - opt_beta)))`. -/
def betaCoeff (s N : ℕ) (b : ℚ) : ℚ := 1 + -stepIndicator s N * (1 - b)

/-- Modelled from the spec: the momentum-style state update inside the
update-rule chain (`optimizers.py`, absent from `src/`); spec §4.4 gates the
advance multiplicatively, i.e. an exponential moving average
`m ← β·m + (1−β)·g` with the gated β. -/
def emaUpdate (beta m g : ℚ) : ℚ := beta * m + (1 - beta) * g

/-- The canonical in-window offset of the apply step is indeed an apply step. -/
theorem applyStep_mod_zero (s N : ℕ) (hN : 0 < N) :
    (s + (N - (s + 1) % N) % N + 1) % N = 0 := by
  have hr : (s + 1) % N < N := Nat.mod_lt _ hN
  have hle : (s + 1) % N ≤ s + 1 := Nat.mod_le _ _
  have hdiv : N * ((s + 1) / N) = (s + 1) - (s + 1) % N :=
    Nat.eq_sub_of_add_eq (Nat.div_add_mod (s + 1) N)
  rcases Nat.eq_zero_or_pos ((s + 1) % N) with h0 | hpos
  · have ht : (N - (s + 1) % N) % N = 0 := by
      rw [h0, Nat.sub_zero, Nat.mod_self]
    rw [ht]
    have h1 : s + 0 + 1 = s + 1 := by omega
    rw [h1]
    exact h0
  · have ht : (N - (s + 1) % N) % N = N - (s + 1) % N :=
      Nat.mod_eq_of_lt (by omega)
    rw [ht]
    have harr : s + (N - (s + 1) % N) + 1 = ((s + 1) - (s + 1) % N) + N := by omega
    rw [harr, Nat.add_mod_right, ← hdiv, Nat.mul_mod_right]

/-- Any window of `N` consecutive raw steps contains exactly one apply step. -/
theorem applyStep_exists_unique (s N : ℕ) (hN : 0 < N) :
    ∃! k, k < N ∧ (s + k + 1) % N = 0 := by
  refine ⟨(N - (s + 1) % N) % N, ⟨Nat.mod_lt _ hN, applyStep_mod_zero s N hN⟩, ?_⟩
  · rintro k ⟨hk, hmk⟩
    have hk0 : (s + (N - (s + 1) % N) % N + 1) % N = 0 := applyStep_mod_zero s N hN
    have hcong : (s + 1) + k ≡ (s + 1) + (N - (s + 1) % N) % N [MOD N] := by
      have a1 : (s + 1) + k = s + k + 1 := by omega
      have a2 : (s + 1) + (N - (s + 1) % N) % N = s + (N - (s + 1) % N) % N + 1 := by
        omega
      unfold Nat.ModEq
      rw [a1, a2, hmk, hk0]
    have hkk : k ≡ (N - (s + 1) % N) % N [MOD N] :=
      Nat.ModEq.add_left_cancel (Nat.ModEq.refl (s + 1)) hcong
    have := hkk
    unfold Nat.ModEq at this
    rw [Nat.mod_eq_of_lt hk, Nat.mod_eq_of_lt (Nat.mod_lt _ hN)] at this
    exact this

/-- C7: for every global step `s` and window `N > 0`, the step indicator is 1
exactly when `(s+1) mod N = 0`; each momentum coefficient equals
`1 − indicator·(1 − β)`; on non-apply steps the indicator is 0, both betas
equal exactly 1 and the moment estimate does not advance; and each window of
`N` consecutive raw steps contains exactly one apply step, so moments advance
once per `N` raw steps. -/
theorem C7_step_indicator_gating (s N : ℕ) (b m g : ℚ) (hN : 0 < N) :
    (stepIndicator s N = 1 ↔ (s + 1) % N = 0) ∧
      betaCoeff s N b = 1 - stepIndicator s N * (1 - b) ∧
      ((s + 1) % N ≠ 0 →
        stepIndicator s N = 0 ∧ betaCoeff s N b = 1 ∧
          emaUpdate (betaCoeff s N b) m g = m) ∧
      (∃! k, k < N ∧ (s + k + 1) % N = 0) := by
  refine ⟨?_, by unfold betaCoeff; ring, ?_, applyStep_exists_unique s N hN⟩
  · unfold stepIndicator
    by_cases h : (s + 1) % N = 0 <;> simp [h]
  · intro h
    have hz : stepIndicator s N = 0 := by simp [stepIndicator, h]
    have hb : betaCoeff s N b = 1 := by simp [betaCoeff, hz]
    exact ⟨hz, hb, by simp [emaUpdate, hb]⟩

/-- C7: witness at `s = 0`, `N = 2` (an accumulate step). -/
theorem C7_witness :
    0 < 2 ∧
      ((stepIndicator 0 2 = 1 ↔ (0 + 1) % 2 = 0) ∧
        betaCoeff 0 2 (9/10) = 1 - stepIndicator 0 2 * (1 - 9/10) ∧
        ((0 + 1) % 2 ≠ 0 →
          stepIndicator 0 2 = 0 ∧ betaCoeff 0 2 (9/10) = 1 ∧
            emaUpdate (betaCoeff 0 2 (9/10)) 3 7 = 3) ∧
        (∃! k, k < 2 ∧ (0 + k + 1) % 2 = 0)) :=
  ⟨by decide, C7_step_indicator_gating 0 2 (9/10) 3 7 (by decide)⟩

/-- Which function `get_optimizer` hands the per-variable context to
(line 173): `gradient_accumulation if fn == "accumulate" else update`. -/
inductive StepFn
  | accumulateGrads
  | applyUpdate
  deriving DecidableEq

/-- The dispatch on the supplied mode name, checked by string equality. -/
def dispatchFn (fn : String) : StepFn :=
  if fn = "accumulate" then StepFn.accumulateGrads else StepFn.applyUpdate

/-- Modelled from the spec: the keys of the `OPTIMIZERS` registry
(`optimizers.py`, absent from `src/`); spec §4.5 names the real update-rule
chain entries, e.g. `"clip:1.0"`, `"adam"`, `"lamb"`, `"sgd"`. -/
def optimizerNames : List String := ["sgd", "adam", "lamb", "clip"]

/-- C9: for every mode string, the accumulate path runs if and only if the
string equals the reserved name `"accumulate"` (checked by name, not
position), and the reserved name collides with no real optimizer name of the
update-rule chain. -/
theorem C9_dispatch_by_name (fn : String) :
    (dispatchFn fn = StepFn.accumulateGrads ↔ fn = "accumulate") ∧
      "accumulate" ∉ optimizerNames := by
  constructor
  · unfold dispatchFn
    by_cases h : fn = "accumulate" <;> simp [h]
  · decide

/-- An operation of the dataflow graph as the optimizer sees it: gradient
capability and input/output tensor ids, listed in construction order. -/
structure Operation where
  hasGradient : Bool
  inputs : List ℕ
  outputs : List ℕ

/-- One step of the forward reachability scan (lines 142-144): an operation's
outputs join the set iff `op.has_gradient` and `set(op.inputs) & downstream`
is non-empty. -/
def downstreamStep (s : Finset ℕ) (op : Operation) : Finset ℕ :=
  if op.hasGradient = true ∧ ∃ u ∈ op.inputs, u ∈ s then s ∪ op.outputs.toFinset
  else s

/-- The downstream set: a single forward scan over the operations in
construction order, seeded with the trainable-variable output tensors
(line 140: `downstream = set(xs)`); rebuilt from scratch for each loss head
since it lives inside the per-loss loop. -/
def downstreamSet (ops : List Operation) (seed : Finset ℕ) : Finset ℕ :=
  ops.foldl downstreamStep seed

/-- Unfolding the scan one operation at a time. -/
theorem downstreamSet_cons (op : Operation) (ops : List Operation) (seed : Finset ℕ) :
    downstreamSet (op :: ops) seed = downstreamSet ops (downstreamStep seed op) := rfl

/-- Membership after one scan step. -/
theorem mem_downstreamStep (s : Finset ℕ) (op : Operation) (t : ℕ) :
    t ∈ downstreamStep s op ↔
      t ∈ s ∨ (op.hasGradient = true ∧ t ∈ op.outputs ∧ ∃ u ∈ op.inputs, u ∈ s) := by
  unfold downstreamStep
  by_cases h : op.hasGradient = true ∧ ∃ u ∈ op.inputs, u ∈ s
  · rw [if_pos h]
    simp only [Finset.mem_union, List.mem_toFinset]
    tauto
  · rw [if_neg h]
    constructor
    · exact Or.inl
    · rintro (hs | ⟨hg, ho, hex⟩)
      · exact hs
      · exact absurd ⟨hg, hex⟩ h

/-- C5: a tensor is in the downstream set iff it is a seed tensor (a
trainable-variable output) or some operation at position `i` of the
construction order is gradient-capable, lists the tensor among its outputs,
and has at least one input already downstream when the scan reaches it
(i.e. downstream of the operations before position `i`).  This is exactly the
single forward scan the spec describes, recomputed per loss head from the
trainable-variable seed. -/
theorem C5_downstream_characterization (ops : List Operation) (seed : Finset ℕ)
    (t : ℕ) :
    t ∈ downstreamSet ops seed ↔
      t ∈ seed ∨ ∃ i : ℕ, ∃ hi : i < ops.length,
        (ops.get ⟨i, hi⟩).hasGradient = true ∧ t ∈ (ops.get ⟨i, hi⟩).outputs ∧
          ∃ u ∈ (ops.get ⟨i, hi⟩).inputs, u ∈ downstreamSet (ops.take i) seed := by
  induction ops generalizing seed with
  | nil => simp [downstreamSet]
  | cons op ops ih =>
    rw [downstreamSet_cons, ih]
    constructor
    · rintro (hstep | ⟨i, hi, hg, ho, hex⟩)
      · rcases (mem_downstreamStep seed op t).1 hstep with hs | ⟨hg, ho, hex⟩
        · exact Or.inl hs
        · refine Or.inr ⟨0, by simp, ?_⟩
          simpa [downstreamSet] using ⟨hg, ho, hex⟩
      · refine Or.inr ⟨i + 1, by simpa using Nat.succ_lt_succ hi, ?_⟩
        simp only [List.get_cons_succ, List.take_succ_cons, downstreamSet_cons]
        exact ⟨hg, ho, hex⟩
    · rintro (hs | ⟨i, hi, hg, ho, hex⟩)
      · exact Or.inl ((mem_downstreamStep seed op t).2 (Or.inl hs))
      · cases i with
        | zero =>
          left
          apply (mem_downstreamStep seed op t).2
          right
          exact ⟨hg, ho, hex⟩
        | succ j =>
          right
          refine ⟨j, Nat.lt_of_succ_lt_succ (by simpa using hi), ?_⟩
          simp only [List.get_cons_succ] at hg ho hex
          simp only [List.take_succ_cons, downstreamSet_cons] at hex
          exact ⟨hg, ho, hex⟩

/-- Modelled from the spec: the GradientMap of the reverse traversal
(`gradients.py` is absent from `src/`; lines 146-161 show only the eviction
bookkeeping).  Per tensor id: an optional entry
`(pending contributions, accumulated gradient)`, plus the finalized
`(tensor, complete gradient)` pairs in eviction order. -/
structure GradientMap where
  entries : ℕ → Option (ℕ × ℚ)
  finalized : List (ℕ × ℚ)

/-- Modelled from the spec: adding one gradient contribution for tensor `t`
(spec §4.2).  A missing entry is created with the tensor's expected
contributor count; the count decreases by one and the value accumulates;
when the count reaches zero the entry's complete value is emitted and the
entry is evicted. -/
def addContribution (expected : ℕ → ℕ) (gm : GradientMap) (t : ℕ) (x : ℚ) :
    GradientMap :=
  let rem := ((gm.entries t).getD (expected t, 0)).1
  let acc := ((gm.entries t).getD (expected t, 0)).2 + x
  if rem - 1 = 0 then
    { entries := fun u => if u = t then none else gm.entries u,
      finalized := gm.finalized ++ [(t, acc)] }
  else
    { entries := fun u => if u = t then some (rem - 1, acc) else gm.entries u,
      finalized := gm.finalized }

/-- Processing a whole contribution trace from the empty map. -/
def runGradientMap (expected : ℕ → ℕ) (evs : List (ℕ × ℚ)) : GradientMap :=
  evs.foldl (fun gm e => addContribution expected gm e.1 e.2) ⟨fun _ => none, []⟩

/-- How many contributions tensor `t` receives in a trace. -/
def contribCount (t : ℕ) (evs : List (ℕ × ℚ)) : ℕ :=
  (evs.filter (fun e => e.1 = t)).length

/-- The total gradient tensor `t` receives in a trace. -/
def contribTotal (t : ℕ) (evs : List (ℕ × ℚ)) : ℚ :=
  ((evs.filter (fun e => e.1 = t)).map (fun e => e.2)).sum

/-- The complete gradients emitted (read at finalization) for tensor `t`. -/
def finalizedFor (t : ℕ) (gm : GradientMap) : List ℚ :=
  (gm.finalized.filter (fun e => e.1 = t)).map (fun e => e.2)

theorem runGradientMap_snoc (expected : ℕ → ℕ) (evs : List (ℕ × ℚ)) (e : ℕ × ℚ) :
    runGradientMap expected (evs ++ [e]) =
      addContribution expected (runGradientMap expected evs) e.1 e.2 := by
  simp [runGradientMap, List.foldl_append]

theorem contribCount_snoc (t u : ℕ) (x : ℚ) (evs : List (ℕ × ℚ)) :
    contribCount t (evs ++ [(u, x)]) =
      contribCount t evs + if u = t then 1 else 0 := by
  by_cases h : u = t <;> simp [contribCount, List.filter_append, h]

theorem contribTotal_snoc (t u : ℕ) (x : ℚ) (evs : List (ℕ × ℚ)) :
    contribTotal t (evs ++ [(u, x)]) =
      contribTotal t evs + if u = t then x else 0 := by
  by_cases h : u = t <;> simp [contribTotal, List.filter_append, h]

theorem contribTotal_of_count_zero (t : ℕ) (evs : List (ℕ × ℚ))
    (hk : contribCount t evs = 0) : contribTotal t evs = 0 := by
  unfold contribCount at hk
  rw [List.length_eq_zero] at hk
  unfold contribTotal
  rw [hk]
  rfl

/-- A contribution for a different tensor touches neither `t`'s entry nor
`t`'s finalized gradients. -/
theorem addContribution_other (expected : ℕ → ℕ) (gm : GradientMap) (u t : ℕ)
    (x : ℚ) (h : u ≠ t) :
    (addContribution expected gm u x).entries t = gm.entries t ∧
      finalizedFor t (addContribution expected gm u x) = finalizedFor t gm := by
  unfold addContribution finalizedFor
  by_cases hb : ((gm.entries u).getD (expected u, 0)).1 - 1 = 0 <;>
    simp [hb, Ne.symm h, List.filter_append, h]

/-- C6: GradientMap lifetime invariant.  For any trace in which tensor `t`
receives at most its expected number of contributions: while `0 < seen <
expected` the entry is present and holds `(expected − seen, partial sum)`;
the entry is absent exactly when no contribution has arrived or the count has
reached zero (`seen = expected`); and a complete gradient for `t` is emitted
exactly once, at the moment the count reaches zero, equal to the total of all
contributions — never read before completion, never after removal. -/
theorem C6_gradient_map_lifetime (expected : ℕ → ℕ) (evs : List (ℕ × ℚ)) (t : ℕ)
    (hle : contribCount t evs ≤ expected t) :
    (runGradientMap expected evs).entries t =
        (if contribCount t evs = 0 ∨ contribCount t evs = expected t then none
         else some (expected t - contribCount t evs, contribTotal t evs)) ∧
      finalizedFor t (runGradientMap expected evs) =
        (if 0 < contribCount t evs ∧ contribCount t evs = expected t
         then [contribTotal t evs] else []) := by
  induction evs using List.reverseRecOn with
  | nil =>
    constructor
    · simp [runGradientMap, contribCount]
    · simp [runGradientMap, finalizedFor, contribCount]
  | append_singleton evs e ih =>
    obtain ⟨u, x⟩ := e
    rw [runGradientMap_snoc]
    by_cases hu : u = t
    · subst hu
      have hc : contribCount u (evs ++ [(u, x)]) = contribCount u evs + 1 := by
        rw [contribCount_snoc]; simp
      have htot : contribTotal u (evs ++ [(u, x)]) = contribTotal u evs + x := by
        rw [contribTotal_snoc]; simp
      rw [hc] at hle ⊢
      rw [htot]
      have hle' : contribCount u evs ≤ expected u := by omega
      have hlt : contribCount u evs < expected u := by omega
      obtain ⟨ih1, ih2⟩ := ih hle'
      by_cases hk : contribCount u evs = 0
      · have ih1' : (runGradientMap expected evs).entries u = none := by
          rw [ih1, if_pos (Or.inl hk)]
        have ih2' : finalizedFor u (runGradientMap expected evs) = [] := by
          rw [ih2, if_neg]
          simp [hk]
        have htz : contribTotal u evs = 0 := contribTotal_of_count_zero u evs hk
        unfold addContribution
        rw [ih1']
        simp only [Option.getD_none]
        by_cases hone : expected u - 1 = 0
        · have hexp1 : expected u = 1 := by omega
          rw [if_pos hone]
          constructor
          · simp [hk, hexp1]
          · have hcond : 0 < contribCount u evs + 1 ∧
                contribCount u evs + 1 = expected u := by omega
            rw [if_pos hcond]
            unfold finalizedFor at ih2' ⊢
            simp only [List.filter_append, List.map_append, ih2']
            simp [htz]
        · rw [if_neg hone]
          constructor
          · have hcond : ¬(contribCount u evs + 1 = 0 ∨
                contribCount u evs + 1 = expected u) := by omega
            rw [if_neg hcond]
            simp only [if_pos rfl]
            rw [hk, htz]
            norm_num
          · have hcond : ¬(0 < contribCount u evs + 1 ∧
                contribCount u evs + 1 = expected u) := by omega
            rw [if_neg hcond]
            simpa [finalizedFor] using ih2'
      · have hknz : ¬(contribCount u evs = 0 ∨ contribCount u evs = expected u) := by
          omega
        have ih1' : (runGradientMap expected evs).entries u =
            some (expected u - contribCount u evs, contribTotal u evs) := by
          rw [ih1, if_neg hknz]
        have ih2' : finalizedFor u (runGradientMap expected evs) = [] := by
          rw [ih2, if_neg]
          omega
        unfold addContribution
        rw [ih1']
        simp only [Option.getD_some]
        by_cases hlast : contribCount u evs + 1 = expected u
        · have hb : expected u - contribCount u evs - 1 = 0 := by omega
          rw [if_pos hb]
          constructor
          · simp [hlast]
          · have hcond : 0 < contribCount u evs + 1 ∧
                contribCount u evs + 1 = expected u := by omega
            rw [if_pos hcond]
            unfold finalizedFor at ih2' ⊢
            simp only [List.filter_append, List.map_append, ih2']
            simp
        · have hb : ¬(expected u - contribCount u evs - 1 = 0) := by omega
          rw [if_neg hb]
          constructor
          · have hcond : ¬(contribCount u evs + 1 = 0 ∨
                contribCount u evs + 1 = expected u) := by omega
            rw [if_neg hcond]
            simp only [if_pos rfl]
            have harith : expected u - contribCount u evs - 1 =
                expected u - (contribCount u evs + 1) := by omega
            rw [harith]
            simp
          · have hcond : ¬(0 < contribCount u evs + 1 ∧
                contribCount u evs + 1 = expected u) := by omega
            rw [if_neg hcond]
            simpa [finalizedFor] using ih2'
    · have hc : contribCount t (evs ++ [(u, x)]) = contribCount t evs := by
        rw [contribCount_snoc]; simp [hu]
      have htot : contribTotal t (evs ++ [(u, x)]) = contribTotal t evs := by
        rw [contribTotal_snoc]; simp [hu]
      rw [hc] at hle ⊢
      rw [htot]
      obtain ⟨ih1, ih2⟩ := ih hle
      obtain ⟨ho1, ho2⟩ :=
        addContribution_other expected (runGradientMap expected evs) u t x hu
      rw [ho1, ho2]
      exact ⟨ih1, ih2⟩

/-- C6: witness.  Trace `[(5,1), (3,10), (5,2)]` with two expected
contributions for tensor 5: afterwards tensor 5's entry is evicted and its
single finalized gradient is the complete sum 3. -/
theorem C6_witness :
    contribCount 5 [(5, 1), (3, 10), (5, 2)] ≤ 2 ∧
      ((runGradientMap (fun _ => 2) [(5, 1), (3, 10), (5, 2)]).entries 5 =
          (if contribCount 5 [(5, 1), (3, 10), (5, 2)] = 0 ∨
              contribCount 5 [(5, 1), (3, 10), (5, 2)] = 2 then none
           else some (2 - contribCount 5 [(5, 1), (3, 10), (5, 2)],
             contribTotal 5 [(5, 1), (3, 10), (5, 2)])) ∧
        finalizedFor 5 (runGradientMap (fun _ => 2) [(5, 1), (3, 10), (5, 2)]) =
          (if 0 < contribCount 5 [(5, 1), (3, 10), (5, 2)] ∧
              contribCount 5 [(5, 1), (3, 10), (5, 2)] = 2
           then [contribTotal 5 [(5, 1), (3, 10), (5, 2)]] else [])) :=
  ⟨by decide, C6_gradient_map_lifetime (fun _ => 2) [(5, 1), (3, 10), (5, 2)] 5
    (by decide)⟩

/-- The target variance of `update` (lines 66-71): from the fan-in size
`fanIn` and the total size, with `max_fan = max(fan_in, size // fan_in)`, the
closed form `(1 - 1/max_fan) / size² + 1/max_fan - 2/size + 1/max_fan`,
multiplied by `n_blocks` when depth scaling is configured. -/
def targetVariance (fanIn size : ℕ) (scaleByDepth : Bool) (nBlocks : ℕ) : ℚ :=
  let maxFan : ℚ := max (fanIn : ℚ) ((size / fanIn : ℕ) : ℚ)
  let base := (1 - 1 / maxFan) / (size : ℚ) ^ 2 + 1 / maxFan - 2 / (size : ℚ) +
    1 / maxFan
  if scaleByDepth then base * (nBlocks : ℚ) else base

/-- Modelled from the spec: `rsqrt_eps` of `mtf_wrapper` (absent from
`src/`); spec §4.6 calls it an epsilon-guarded reciprocal square root,
`x ↦ 1 / sqrt(x + ε)`. -/
noncomputable def rsqrtEps (eps x : ℝ) : ℝ := (Real.sqrt (x + eps))⁻¹

/-- The mean square `einsum([val, val, optimizer_scalar(1 / val.size)])` of
line 72. -/
noncomputable def meanSq (val : List ℝ) : ℝ :=
  (val.map (fun a => a ^ 2)).sum / val.length

/-- The rescale factor of the standardized assignment (lines 72-73): each
component of `v' = v − grad` is multiplied by
`rsqrt_eps(mean-square of v') * sqrt(target variance)`. -/
noncomputable def wsFactor (eps tv : ℝ) (val : List ℝ) : ℝ :=
  rsqrtEps eps (meanSq val) * Real.sqrt tv

/-- C8: weight standardization is idempotent at its fixed point.  If the
post-update tensor `v'` already has exactly the target variance derived from
its fan-in and size, then each component `x` of the assigned value
`x * rsqrt_eps(actual) * sqrt(target)` differs from `x` by at most the
relative tolerance `ε / (variance + ε)` forced by the epsilon guard. -/
theorem C8_ws_idempotent (eps : ℝ) (fanIn size nBlocks : ℕ) (sbd : Bool)
    (val : List ℝ) (x : ℝ) (heps : 0 < eps)
    (htv : 0 < ((targetVariance fanIn size sbd nBlocks : ℚ) : ℝ))
    (hfix : meanSq val = ((targetVariance fanIn size sbd nBlocks : ℚ) : ℝ)) :
    |x * wsFactor eps ((targetVariance fanIn size sbd nBlocks : ℚ) : ℝ) val - x| ≤
      |x| * (eps / (((targetVariance fanIn size sbd nBlocks : ℚ) : ℝ) + eps)) := by
  set v : ℝ := ((targetVariance fanIn size sbd nBlocks : ℚ) : ℝ) with hv
  have hvpos : 0 < v := htv
  have hve : 0 < v + eps := by linarith
  have hfac : wsFactor eps v val = Real.sqrt (v / (v + eps)) := by
    rw [wsFactor, rsqrtEps, hfix, Real.sqrt_div hvpos.le, div_eq_mul_inv, mul_comm]
  set r : ℝ := v / (v + eps) with hr
  have hr0 : 0 ≤ r := by positivity
  have hr1 : r ≤ 1 := by
    rw [hr, div_le_one hve]
    linarith
  have hsle : Real.sqrt r ≤ 1 := Real.sqrt_le_one.mpr hr1
  have hrle : r ≤ Real.sqrt r := by
    nlinarith [Real.sq_sqrt hr0, Real.sqrt_nonneg r]
  have h1r : 1 - r = eps / (v + eps) := by
    rw [hr]
    field_simp
  have hbound : 1 - Real.sqrt r ≤ eps / (v + eps) := by
    rw [← h1r]
    linarith
  calc |x * wsFactor eps v val - x| = |x| * (1 - Real.sqrt r) := by
        rw [hfac]
        have hx : x * Real.sqrt r - x = x * (Real.sqrt r - 1) := by ring
        rw [hx, abs_mul, abs_of_nonpos (by linarith : Real.sqrt r - 1 ≤ 0)]
        ring
    _ ≤ |x| * (eps / (v + eps)) :=
        mul_le_mul_of_nonneg_left hbound (abs_nonneg x)

/-- C8: witness.  `fan_in = 2`, `size = 4` give target variance `17/32`; the
tensor `[1, 1, 1/4, 1/4]` has mean square exactly `17/32`, and with `ε = 1`
its first component moves by at most `|1| · (1 / (17/32 + 1))`. -/
theorem C8_witness :
    (0 : ℝ) < 1 ∧
      0 < ((targetVariance 2 4 false 1 : ℚ) : ℝ) ∧
      meanSq [1, 1, 1/4, 1/4] = ((targetVariance 2 4 false 1 : ℚ) : ℝ) ∧
      |(1 : ℝ) * wsFactor 1 ((targetVariance 2 4 false 1 : ℚ) : ℝ)
          [1, 1, 1/4, 1/4] - 1| ≤
        |(1 : ℝ)| * (1 / (((targetVariance 2 4 false 1 : ℚ) : ℝ) + 1)) :=
  ⟨by norm_num,
    by norm_num [targetVariance],
    by norm_num [meanSq, targetVariance],
    C8_ws_idempotent 1 2 4 1 false [1, 1, 1/4, 1/4] 1 (by norm_num)
      (by norm_num [targetVariance]) (by norm_num [meanSq, targetVariance])⟩

end MTF
